import Mathlib

/- Shallow embedding of the windowed data-quality scoring engine of
`Codes/bench_tool/bench_tool/dq_measurement.py` (the refined version of the
near-identical `Codes/Python Scripts/dq_measurement.py`).

Modelling conventions.
IEEE floats are modelled as exact rationals; NaN is modelled by `none` in
`Option ℚ` (pd.to_numeric with the coerce option maps unparsable text to NaN).
A pandas chunk read with dtype str is a list of `SensorTuple`s whose `value`
field holds the raw text (the empty string stands for a missing cell, as
produced by fillna), and whose `timestamp` / `available_time` fields hold the
result of the numeric coercion of the raw text (`none` models NaN).
String-to-number coercion of the `value` column is an explicit parameter
`toNum` of the pipeline. -/

/-- One sensor reading, as it appears in a chunk of the input CSV. -/
structure SensorTuple where
  value_id : String
  sensor_id : String
  value : String
  timestamp : Option ℚ
  available_time : Option ℚ
deriving DecidableEq

/-- Model of np.median on a list of rationals: `none` on the empty list
(numpy yields NaN there), otherwise the middle element of the ascending
sort, or the mean of the two middle elements for even length. -/
def npMedian (l : List ℚ) : Option ℚ :=
  if l = [] then none
  else
    let s := List.insertionSort (fun a b => a ≤ b) l
    if l.length % 2 = 1 then s[l.length / 2]?
    else
      match s[l.length / 2 - 1]?, s[l.length / 2]? with
      | some a, some b => some ((a + b) / 2)
      | _, _ => none

/-- Count of NaN entries in the value array: np.sum of np.isnan. -/
def nanCount (w : List (Option ℚ)) : ℕ :=
  (w.filter (fun x => x.isNone)).length

/-- The value array after the NaN entries are removed. -/
def remaining (w : List (Option ℚ)) : List ℚ :=
  w.filterMap id

/-- The MAD normalization constant alpha, the exact rational for 1 / 0.6745. -/
def alphaMAD : ℚ := 1 / (6745 / 10000)

/-- V_T as accumulated by _calculate_window_accuracy: the NaN count, plus,
when the post-removal array is nonempty (so that median, MAD and threshold
are finite), the count of remaining values farther than the threshold from
the median.  When the post-removal array is empty, numpy yields NaN for
median, MAD and threshold, and the outlier comparison ranges over an empty
array, adding nothing. -/
def accVT (w : List (Option ℚ)) : ℕ :=
  match npMedian (remaining w) with
  | none => nanCount w
  | some med =>
    let mad := (npMedian ((remaining w).map (fun x => |x - med|))).getD 0
    let threshold := 3 * mad * alphaMAD
    nanCount w + ((remaining w).filter (fun x => decide (threshold < |x - med|))).length

/-- The accuracy value computed by _calculate_window_accuracy.  The divisor
N_A is WINDOW_SIZE, which the function sets to the length of its input array
(NaN entries included), never the post-removal count. -/
def accuracyOf (w : List (Option ℚ)) : ℚ :=
  if w.length = 0 then 1 else 1 - (accVT w : ℚ) / (w.length : ℚ)

/-- The full tuple returned by _calculate_window_accuracy, with each Python
float rendered as `Option ℚ` (`none` models NaN).  The empty-window branch
of the source returns the four-element tuple 1.0, 0, 0, 0 (accuracy, MAD,
V_T, median, with no threshold component); every other branch returns the
five-element tuple accuracy, mad, V_T, median, threshold. -/
def calculate_window_accuracy (w : List (Option ℚ)) : List (Option ℚ) :=
  if w.length = 0 then [some 1, some 0, some 0, some 0]
  else
    match npMedian (remaining w) with
    | none =>
      [some (accuracyOf w), none, some (nanCount w : ℚ), none, none]
    | some med =>
      let mad := (npMedian ((remaining w).map (fun x => |x - med|))).getD 0
      let threshold := 3 * mad * alphaMAD
      [some (accuracyOf w), some mad, some (accVT w : ℚ), some med, some threshold]

/-- _calculate_window_completeness: the missing count is the number of rows
whose value cell is the empty string (the caller applies fillna first, so a
missing CSV cell is the empty string here), and completeness is one minus
missing over total, with the empty window defined to have completeness 1. -/
def calculate_window_completeness (w : List SensorTuple) : ℚ × ℕ :=
  let missing := (w.filter (fun t => decide (t.value = ""))).length
  (if w.length = 0 then 1 else 1 - (missing : ℚ) / (w.length : ℚ), missing)

/-- Truncation toward zero: the behavior of the astype int cast on floats. -/
def truncQ (q : ℚ) : ℤ :=
  if 0 ≤ q then ⌊q⌋ else ⌈q⌉

/-- Per-row timeliness: max of 1 - currency / volatility and 0, where
currency is the astype int cast of available_time minus the astype int cast
of timestamp.  The getD defaults are unreachable for rows of a window that
passed the astype conversion (no NaN present). -/
def rowTimeliness (volatility : ℚ) (t : SensorTuple) : ℚ :=
  max (1 - ((truncQ (t.available_time.getD 0) - truncQ (t.timestamp.getD 0) : ℤ) : ℚ) / volatility) 0

/-- _calculate_window_timeliness.  The two timestamp columns were already
coerced with pd.to_numeric, which never raises; the empty window returns 1;
the astype int casts raise a ValueError as soon as either column holds a
NaN, which the Except error models; otherwise the result is the mean of the
per-row timeliness values. -/
def calculate_window_timeliness (volatility : ℚ) (w : List SensorTuple) : Except String ℚ :=
  if w.length = 0 then .ok 1
  else if w.any (fun t => t.available_time.isNone || t.timestamp.isNone) then
    .error "ValueError: cannot convert non-finite values to integer"
  else
    .ok ((w.map (rowTimeliness volatility)).sum / (w.length : ℚ))

/-- One row of the aggregated result, the columns of result_df. -/
structure WindowScore where
  value_start : String
  value_end : String
  accuracy : ℚ
  completeness : ℚ
  timeliness : ℚ
deriving DecidableEq

/-- The input stream as seen by measure_dqs: the set of column names the
CSV header provides, and the row data.  Rows carry all five logical fields;
a field of an absent column is never consulted, because the column lookup
fails first, as in pandas. -/
structure InputTable where
  cols : List String
  rows : List SensorTuple

/-- Column lookup on a chunk: a KeyError when the column is absent. -/
def requireCol (cols : List String) (name : String) : Except String Unit :=
  if name ∈ cols then .ok () else .error ("KeyError: " ++ name)

/-- The body of the full-window branch of measure_dqs: read the value_id
column for the window boundary ids, score accuracy on the coerced value
column, completeness on the raw rows, and timeliness on the two timestamp
columns, in source order.  The value column itself was already demanded for
every chunk before this point. -/
def scoreWindow (toNum : String → Option ℚ) (cols : List String) (volatility : ℚ)
    (chunk : List SensorTuple) : Except String WindowScore := do
  let _ ← requireCol cols "value_id"
  let vals := chunk.map (fun t => toNum t.value)
  let acc := accuracyOf vals
  let comp := (calculate_window_completeness chunk).1
  let _ ← requireCol cols "available_time"
  let _ ← requireCol cols "timestamp"
  let tim ← calculate_window_timeliness volatility chunk
  pure { value_start := ((chunk.head?).map (fun t => t.value_id)).getD ""
         value_end := ((chunk.getLast?).map (fun t => t.value_id)).getD ""
         accuracy := acc
         completeness := comp
         timeliness := tim }

/-- Fuel-indexed splitter behind chunksOf; the fuel is instantiated with
the list length, which makes the zero-fuel arm for nonempty lists
unreachable. -/
def chunksOfAux (ws : ℕ) : ℕ → List SensorTuple → List (List SensorTuple)
  | _, [] => []
  | 0, _ :: _ => []
  | n + 1, x :: xs => (x :: xs).take ws :: chunksOfAux ws n ((x :: xs).drop ws)

/-- The chunked read of pandas with a positive chunksize: consecutive runs
of ws rows in stream order, the final run possibly shorter. -/
def chunksOf (ws : ℕ) (l : List SensorTuple) : List (List SensorTuple) :=
  chunksOfAux ws l.length l

/-- Per-chunk body of the measure_dqs loop: the value column is read and
coerced for every chunk; only a chunk of exactly ws rows is scored. -/
def processChunk (toNum : String → Option ℚ) (cols : List String) (ws : ℕ)
    (volatility : ℚ) (chunk : List SensorTuple) : Except String (Option WindowScore) := do
  let _ ← requireCol cols "value"
  if chunk.length = ws then do
    let s ← scoreWindow toNum cols volatility chunk
    pure (some s)
  else
    pure none

/-- The measure_dqs loop over the chunk sequence.  A raised error aborts
the run at once; scores accumulated for earlier chunks are discarded with
it, as the Python lists never reach the result frame. -/
def runChunks (toNum : String → Option ℚ) (cols : List String) (ws : ℕ)
    (volatility : ℚ) : List (List SensorTuple) → Except String (List WindowScore)
  | [] => .ok []
  | c :: cs => do
    let s? ← processChunk toNum cols ws volatility c
    let rest ← runChunks toNum cols ws volatility cs
    match s? with
    | some s => pure (s :: rest)
    | none => pure rest

/-- measure_dqs: chunked read of the input with chunksize ws (pandas rejects
a nonpositive chunksize before any row is read), scoring each full chunk. -/
def measure_dqs (toNum : String → Option ℚ) (ws : ℕ) (volatility : ℚ)
    (tbl : InputTable) : Except String (List WindowScore) :=
  if ws = 0 then .error "ValueError: chunksize must be a positive integer"
  else runChunks toNum tbl.cols ws volatility (chunksOf ws tbl.rows)

/-- Elementwise difference of two possibly-NaN cells: NaN propagates. -/
def cellDiff (a b : Option ℚ) : Option ℚ :=
  match a, b with
  | some x, some y => some (x - y)
  | _, _ => none

/-- A positionally indexed cell of a reference row, coerced to numeric with
failures (including an absent cell, which pandas pads with NaN) as NaN. -/
def numCell (toNum : String → Option ℚ) (r : List String) (i : ℕ) : Option ℚ :=
  (r[i]?).bind toNum

/-- compare_results of bench_tool: skip the header row of the reference,
reorder its columns positionally (Value_Start from column 2, Value_End from
column 3, Accuracy from column 0, Completeness from column 1, Timeliness
from column 4), coerce every column of both frames to numeric with failures
becoming NaN, subtract elementwise, and keep the rows in which some column
exceeds 0.009 in absolute value.  Row indices are kept, as pandas filtering
preserves the index.  Rows beyond the shorter of the two frames subtract to
all-NaN rows in pandas and are never retained, so the zipWith model yields
the same retained set. -/
def compare_results (toNum : String → Option ℚ) (computed : List WindowScore)
    (refTable : List (List String)) : List (ℕ × List (Option ℚ)) :=
  let comparison := (refTable.drop 1).map (fun r => [r[2]?, r[3]?, r[0]?, r[1]?, r[4]?])
  let resultNum := computed.map (fun s =>
    [toNum s.value_start, toNum s.value_end, some s.accuracy, some s.completeness, some s.timeliness])
  let comparisonNum := comparison.map (fun r => r.map (fun c => c.bind toNum))
  let diffs := List.zipWith (List.zipWith cellDiff) resultNum comparisonNum
  (diffs.enum).filter (fun p => p.2.any (fun d => Option.any (fun x => decide ((9 : ℚ) / 1000 < |x|)) d))

/-- The largest absolute value among the present entries of a delta row,
0 when none is present. -/
def maxAbsDelta (ds : List (Option ℚ)) : ℚ :=
  ds.foldr (fun d m => match d with | some x => max |x| m | none => m) 0

/-- The Reconciliation Comparator as the specification words it: skip the
header row of the reference, map reference columns positionally with column
0 as Accuracy, column 1 as Completeness, column 2 as Value_Start, column 3
as Value_End and column 4 as Timeliness, coerce every column of both
sequences to numeric with failures becoming NaN, take the elementwise
difference computed minus reference per column per row, and retain exactly
the rows whose maximum absolute delta across all columns exceeds the
tolerance 0.009. -/
def compareResultsSpec (toNum : String → Option ℚ) (computed : List WindowScore)
    (refTable : List (List String)) : List (ℕ × List (Option ℚ)) :=
  let body := refTable.drop 1
  let diffs := List.zipWith (fun s r =>
      [cellDiff (toNum s.value_start) (numCell toNum r 2),
       cellDiff (toNum s.value_end) (numCell toNum r 3),
       cellDiff (some s.accuracy) (numCell toNum r 0),
       cellDiff (some s.completeness) (numCell toNum r 1),
       cellDiff (some s.timeliness) (numCell toNum r 4)]) computed body
  (diffs.enum).filter (fun p => decide ((9 : ℚ) / 1000 < maxAbsDelta p.2))

/-- A concrete numeric coercion usable to instantiate the toNum parameter
on closed inputs: it accepts nonempty strings of decimal digits and rejects
everything else (in particular the empty string, which pd.to_numeric sends
to NaN). -/
def digitsToNat (l : List Char) : Option ℕ :=
  l.foldl (fun acc c => match acc with
    | none => none
    | some n => if c.isDigit then some (10 * n + (c.toNat - 48)) else none) (some 0)

/-- Digit-string instantiation of the numeric coercion parameter. -/
def toNumSimple (s : String) : Option ℚ :=
  if s.data = [] then none
  else (digitsToNat s.data).map (fun n => (n : ℚ))

lemma npMedian_isSome {l : List ℚ} (h : l ≠ []) : ∃ m, npMedian l = some m := by
  unfold npMedian
  rw [if_neg h]
  have hlen : 0 < l.length := List.length_pos.mpr h
  have hs : (List.insertionSort (fun a b => a ≤ b) l).length = l.length :=
    List.length_insertionSort _ l
  by_cases hpar : l.length % 2 = 1
  · rw [if_pos hpar]
    have hidx : l.length / 2 < (List.insertionSort (fun a b => a ≤ b) l).length := by
      rw [hs]; exact Nat.div_lt_self hlen (by norm_num)
    exact ⟨_, List.getElem?_eq_getElem hidx⟩
  · rw [if_neg hpar]
    have h2 : 2 ≤ l.length := by omega
    have hidx1 : l.length / 2 - 1 < (List.insertionSort (fun a b => a ≤ b) l).length := by
      rw [hs]; omega
    have hidx2 : l.length / 2 < (List.insertionSort (fun a b => a ≤ b) l).length := by
      rw [hs]; exact Nat.div_lt_self hlen (by norm_num)
    rw [List.getElem?_eq_getElem hidx1, List.getElem?_eq_getElem hidx2]
    exact ⟨_, rfl⟩

lemma nanCount_add_remaining (w : List (Option ℚ)) :
    nanCount w + (remaining w).length = w.length := by
  induction w with
  | nil => rfl
  | cons a w ih =>
    cases a with
    | none => simp only [nanCount, remaining] at ih ⊢; simp [List.filter_cons]; omega
    | some q => simp only [nanCount, remaining] at ih ⊢; simp [List.filter_cons]; omega

lemma accVT_le_length (w : List (Option ℚ)) : accVT w ≤ w.length := by
  have hsum := nanCount_add_remaining w
  unfold accVT
  split
  · omega
  · rename_i med hmed
    have hf := List.length_filter_le
      (fun x => decide (3 * (npMedian ((remaining w).map fun x => |x - med|)).getD 0 * alphaMAD < |x - med|))
      (remaining w)
    dsimp only
    omega

lemma accuracyOf_mem (w : List (Option ℚ)) : 0 ≤ accuracyOf w ∧ accuracyOf w ≤ 1 := by
  unfold accuracyOf
  split
  · norm_num
  · rename_i hw
    have hlen : (0 : ℚ) < (w.length : ℚ) := by
      have : 0 < w.length := Nat.pos_of_ne_zero hw
      exact_mod_cast this
    have hle : (accVT w : ℚ) ≤ (w.length : ℚ) := by exact_mod_cast accVT_le_length w
    have h1 : (accVT w : ℚ) / (w.length : ℚ) ≤ 1 := (div_le_one hlen).mpr hle
    have h0 : 0 ≤ (accVT w : ℚ) / (w.length : ℚ) := by positivity
    constructor <;> linarith

lemma remaining_ne_nil {w : List (Option ℚ)} (h : ∃ x ∈ w, x ≠ none) :
    remaining w ≠ [] := by
  obtain ⟨x, hxw, hxn⟩ := h
  obtain ⟨q, rfl⟩ := Option.ne_none_iff_exists'.mp hxn
  have : q ∈ remaining w := by
    simp only [remaining, List.mem_filterMap]
    exact ⟨some q, hxw, rfl⟩
  exact List.ne_nil_of_mem this

/-- Claim C1: for every window containing at least one non-NaN value, the
Accuracy Scorer returns accuracy equal to 1 - V_T / window_size, where V_T
is the NaN count plus the count of remaining values farther from the median
of the remaining values than 3 * MAD * (1 / 0.6745), MAD being the median
absolute deviation of the remaining values; the divisor is the length of
the whole window, never the post-removal count. -/
theorem C1_accuracy_mad_formula (w : List (Option ℚ)) (h : ∃ x ∈ w, x ≠ none) :
    ∃ med mad,
      npMedian (remaining w) = some med ∧
      npMedian ((remaining w).map (fun x => |x - med|)) = some mad ∧
      (calculate_window_accuracy w)[0]? = some (some (accuracyOf w)) ∧
      accuracyOf w =
        1 - ((nanCount w +
            ((remaining w).filter
              (fun x => decide (3 * mad * (1 / (6745 / 10000 : ℚ)) < |x - med|))).length : ℕ) : ℚ)
          / (w.length : ℚ) := by
  have hrem : remaining w ≠ [] := remaining_ne_nil h
  have hw : w ≠ [] := by
    intro hww
    exact hrem (by simp [remaining, hww])
  have hwlen : w.length ≠ 0 := by simpa [List.length_eq_zero] using hw
  obtain ⟨med, hmed⟩ := npMedian_isSome hrem
  have hmapne : (remaining w).map (fun x => |x - med|) ≠ [] := by
    simpa [List.map_eq_nil_iff] using hrem
  obtain ⟨mad, hmad⟩ := npMedian_isSome hmapne
  refine ⟨med, mad, hmed, hmad, ?_, ?_⟩
  · unfold calculate_window_accuracy
    rw [if_neg hwlen, hmed]
    simp
  · unfold accuracyOf accVT
    rw [if_neg hwlen, hmed]
    simp only [hmad, Option.getD_some, alphaMAD]

/-- Claim C5 counterexample: the window consisting of a single NaN value
has an empty post-removal set, yet the Accuracy Scorer returns accuracy 0,
not 1.0 (and its median, MAD and threshold components are NaN, not 0). -/
theorem C5_counterexample :
    remaining [(none : Option ℚ)] = [] ∧
    (calculate_window_accuracy [(none : Option ℚ)])[0]? = some (some 0) ∧
    some (some (0 : ℚ)) ≠ some (some (1 : ℚ)) := by
  refine ⟨rfl, ?_, by norm_num⟩
  have hmed : npMedian (remaining [(none : Option ℚ)]) = none := rfl
  unfold calculate_window_accuracy
  rw [hmed]
  have hacc : accuracyOf [(none : Option ℚ)] = 0 := by
    unfold accuracyOf accVT nanCount
    rw [hmed]
    norm_num
  simp [hacc]

/-- Claim C5 amended: only when the window itself is empty does the
Accuracy Scorer return accuracy 1.0, and there the returned tuple is the
four components accuracy 1.0, MAD 0, V_T 0 and median 0, with no threshold
component; a nonempty window whose post-removal set is empty instead gets
accuracy 0 with NaN median, MAD and threshold. -/
theorem C5_amended :
    calculate_window_accuracy ([] : List (Option ℚ)) = [some 1, some 0, some 0, some 0] := rfl

/-- Claim C6: a nonempty all-NaN window yields accuracy exactly 0, with the
invalid count V_T equal to the window size (and NaN median, MAD and
threshold components). -/
theorem C6_all_nan_accuracy (w : List (Option ℚ)) (hne : w ≠ [])
    (hnan : ∀ x ∈ w, x = none) :
    calculate_window_accuracy w = [some 0, none, some (w.length : ℚ), none, none] := by
  have hrem : remaining w = [] := by
    simp only [remaining, List.filterMap_eq_nil_iff]
    intro a ha
    simp [hnan a ha]
  have hnc : nanCount w = w.length := by
    unfold nanCount
    rw [List.filter_eq_self.mpr]
    intro a ha
    simp [hnan a ha]
  have hwlen : w.length ≠ 0 := by simpa [List.length_eq_zero] using hne
  have hmed : npMedian (remaining w) = none := by rw [hrem]; rfl
  have hacc : accuracyOf w = 0 := by
    unfold accuracyOf accVT
    rw [if_neg hwlen, hmed, hnc]
    have : ((w.length : ℚ)) ≠ 0 := by exact_mod_cast hwlen
    field_simp
  unfold calculate_window_accuracy
  rw [if_neg hwlen, hmed, hacc, hnc]

theorem C6_all_nan_accuracy_witness :
    ([(none : Option ℚ)] ≠ [] ∧ ∀ x ∈ [(none : Option ℚ)], x = none) ∧
    calculate_window_accuracy [(none : Option ℚ)] =
      [some 0, none, some (([(none : Option ℚ)].length : ℕ) : ℚ), none, none] :=
  ⟨⟨by simp, by simp⟩, C6_all_nan_accuracy [none] (by simp) (by simp)⟩

theorem C1_accuracy_mad_formula_witness :
    (∃ x ∈ [some (1 : ℚ), none], x ≠ none) ∧
    (∃ med mad,
      npMedian (remaining [some (1 : ℚ), none]) = some med ∧
      npMedian ((remaining [some (1 : ℚ), none]).map (fun x => |x - med|)) = some mad ∧
      (calculate_window_accuracy [some (1 : ℚ), none])[0]? =
        some (some (accuracyOf [some (1 : ℚ), none])) ∧
      accuracyOf [some (1 : ℚ), none] =
        1 - ((nanCount [some (1 : ℚ), none] +
            ((remaining [some (1 : ℚ), none]).filter
              (fun x => decide (3 * mad * (1 / (6745 / 10000 : ℚ)) < |x - med|))).length : ℕ) : ℚ)
          / (([some (1 : ℚ), none].length : ℕ) : ℚ)) :=
  ⟨⟨some 1, by simp⟩, C1_accuracy_mad_formula [some 1, none] ⟨some 1, by simp⟩⟩

/-- Claim C9: for a window of N rows of which exactly k have the empty
string as their value, the Completeness Scorer returns completeness
1 - k / N together with the missing count k, and a window of zero rows gets
completeness 1. -/
theorem C9_completeness_formula (w : List SensorTuple) (N k : ℕ)
    (hN : w.length = N)
    (hk : (w.filter (fun t => decide (t.value = ""))).length = k) :
    (0 < N → calculate_window_completeness w = (1 - (k : ℚ) / (N : ℚ), k)) ∧
    (N = 0 → calculate_window_completeness w = (1, 0)) := by
  subst hN
  subst hk
  constructor
  · intro hpos
    unfold calculate_window_completeness
    dsimp only
    rw [if_neg (by omega)]
  · intro hzero
    have hw : w = [] := List.length_eq_zero.mp hzero
    subst hw
    rfl

theorem C9_completeness_formula_witness :
    ([SensorTuple.mk "1" "7125" "" (some 0) (some 0),
      SensorTuple.mk "2" "7125" "21" (some 0) (some 0)].length = 2 ∧
     ([SensorTuple.mk "1" "7125" "" (some 0) (some 0),
       SensorTuple.mk "2" "7125" "21" (some 0) (some 0)].filter
        (fun t => decide (t.value = ""))).length = 1) ∧
    ((0 < 2 → calculate_window_completeness
        [SensorTuple.mk "1" "7125" "" (some 0) (some 0),
         SensorTuple.mk "2" "7125" "21" (some 0) (some 0)] = (1 - (1 : ℚ) / (2 : ℚ), 1)) ∧
     (2 = 0 → calculate_window_completeness
        [SensorTuple.mk "1" "7125" "" (some 0) (some 0),
         SensorTuple.mk "2" "7125" "21" (some 0) (some 0)] = (1, 0))) :=
  ⟨⟨rfl, by simp [List.filter]⟩,
    C9_completeness_formula _ 2 1 rfl (by simp [List.filter])⟩

lemma truncQ_intCast (a : ℤ) : truncQ (a : ℚ) = a := by
  unfold truncQ
  split
  · exact Int.floor_intCast a
  · exact Int.ceil_intCast a

lemma truncQ_mono {a b : ℚ} (h : a ≤ b) : truncQ a ≤ truncQ b := by
  unfold truncQ
  split <;> split
  · exact Int.floor_le_floor h
  · rename_i ha hb
    exact absurd (le_trans ha h) hb
  · rename_i ha hb
    have h1 : ⌈a⌉ ≤ 0 := Int.ceil_le.mpr (by exact_mod_cast le_of_lt (not_le.mp ha))
    have h2 : (0 : ℤ) ≤ ⌊b⌋ := Int.floor_nonneg.mpr hb
    omega
  · exact Int.ceil_le_ceil h

/-- Claim C4: for every row of a window whose fields coerce, per-row
timeliness equals max of 1 - currency / volatility and 0 with currency the
available time minus the timestamp; currency 0 gives exactly 1, currency
equal to volatility gives exactly 0, currency beyond volatility gives 0 and
never a negative value; the window score is the mean of the per-row values,
and the empty window is assigned timeliness 1. -/
theorem C4_timeliness_decay (vol : ℚ) (hvol : 0 < vol) (w : List SensorTuple)
    (hw : ∀ t ∈ w, t.available_time ≠ none ∧ t.timestamp ≠ none) :
    (w ≠ [] →
      calculate_window_timeliness vol w =
        .ok ((w.map (rowTimeliness vol)).sum / (w.length : ℚ))) ∧
    (∀ t ∈ w, ∀ a b : ℤ, t.available_time = some (a : ℚ) → t.timestamp = some (b : ℚ) →
      rowTimeliness vol t = max (1 - ((a - b : ℤ) : ℚ) / vol) 0 ∧
      (a - b = 0 → rowTimeliness vol t = 1) ∧
      (((a - b : ℤ) : ℚ) = vol → rowTimeliness vol t = 0) ∧
      (vol < ((a - b : ℤ) : ℚ) → rowTimeliness vol t = 0) ∧
      0 ≤ rowTimeliness vol t) ∧
    calculate_window_timeliness vol ([] : List SensorTuple) = .ok 1 := by
  refine ⟨?_, ?_, rfl⟩
  · intro hne
    unfold calculate_window_timeliness
    rw [if_neg (by simpa [List.length_eq_zero] using hne)]
    rw [if_neg ?_]
    simp only [List.any_eq_true, not_exists, not_and, Bool.or_eq_true, not_or]
    intro t ht
    obtain ⟨h1, h2⟩ := hw t ht
    constructor <;> simp_all [Option.isNone_iff_eq_none]
  · intro t ht a b hav hts
    have hrow : rowTimeliness vol t = max (1 - ((a - b : ℤ) : ℚ) / vol) 0 := by
      unfold rowTimeliness
      rw [hav, hts]
      simp only [Option.getD_some, truncQ_intCast]
    refine ⟨hrow, ?_, ?_, ?_, ?_⟩
    · intro hz
      rw [hrow, hz]
      norm_num
    · intro hz
      rw [hrow, hz, div_self (ne_of_gt hvol)]
      norm_num
    · intro hgt
      rw [hrow, max_eq_right]
      have : (1 : ℚ) ≤ ((a - b : ℤ) : ℚ) / vol := (one_le_div hvol).mpr (le_of_lt hgt)
      linarith
    · rw [hrow]
      exact le_max_right _ _

theorem C4_timeliness_decay_witness :
    ((0 : ℚ) < 3000 ∧
      (∀ t ∈ [SensorTuple.mk "1" "7125" "21" (some 0) (some 3000)],
        t.available_time ≠ none ∧ t.timestamp ≠ none)) ∧
    (([SensorTuple.mk "1" "7125" "21" (some 0) (some 3000)] ≠ [] →
      calculate_window_timeliness 3000 [SensorTuple.mk "1" "7125" "21" (some 0) (some 3000)] =
        .ok (([SensorTuple.mk "1" "7125" "21" (some 0) (some 3000)].map
          (rowTimeliness 3000)).sum /
            (([SensorTuple.mk "1" "7125" "21" (some 0) (some 3000)].length : ℕ) : ℚ))) ∧
    (∀ t ∈ [SensorTuple.mk "1" "7125" "21" (some 0) (some 3000)],
      ∀ a b : ℤ, t.available_time = some (a : ℚ) → t.timestamp = some (b : ℚ) →
      rowTimeliness 3000 t = max (1 - ((a - b : ℤ) : ℚ) / 3000) 0 ∧
      (a - b = 0 → rowTimeliness 3000 t = 1) ∧
      (((a - b : ℤ) : ℚ) = 3000 → rowTimeliness 3000 t = 0) ∧
      (3000 < ((a - b : ℤ) : ℚ) → rowTimeliness 3000 t = 0) ∧
      0 ≤ rowTimeliness 3000 t) ∧
    calculate_window_timeliness 3000 ([] : List SensorTuple) = .ok 1) :=
  ⟨⟨by norm_num, by simp⟩,
    C4_timeliness_decay 3000 (by norm_num) _ (by simp)⟩

/-- Claim C7 is contradicted by the code: a row whose available_time or
timestamp fails integer coercion (NaN after pd.to_numeric) is not excluded
from the mean; the astype int conversion raises a ValueError that aborts
the window and propagates to the caller.  This theorem evaluates the
Timeliness Scorer at such a failing input. -/
theorem C7_coercion_failure_aborts :
    calculate_window_timeliness 3000
      [SensorTuple.mk "421" "7125" "21" (some 1000) none] =
    .error "ValueError: cannot convert non-finite values to integer" := by
  simp [calculate_window_timeliness]

lemma chunksOfAux_nil (ws n : ℕ) : chunksOfAux ws n [] = [] := by
  cases n <;> rfl

lemma chunksOfAux_fuel (ws : ℕ) (hws : 0 < ws) :
    ∀ n m (l : List SensorTuple), l.length ≤ n → l.length ≤ m →
      chunksOfAux ws n l = chunksOfAux ws m l := by
  intro n
  induction n with
  | zero =>
    intro m l h1 h2
    have : l = [] := List.length_eq_zero.mp (by omega)
    subst this
    rw [chunksOfAux_nil, chunksOfAux_nil]
  | succ n ih =>
    intro m l h1 h2
    cases l with
    | nil => rw [chunksOfAux_nil, chunksOfAux_nil]
    | cons x xs =>
      cases m with
      | zero => simp at h2
      | succ m =>
        simp only [chunksOfAux]
        congr 1
        apply ih
        · simp only [List.length_drop, List.length_cons]
          simp only [List.length_cons] at h1
          omega
        · simp only [List.length_drop, List.length_cons]
          simp only [List.length_cons] at h2
          omega

lemma chunksOf_nil (ws : ℕ) : chunksOf ws [] = [] := rfl

lemma chunksOf_cons (ws : ℕ) (hws : 0 < ws) (l : List SensorTuple) (hl : l ≠ []) :
    chunksOf ws l = l.take ws :: chunksOf ws (l.drop ws) := by
  obtain ⟨x, xs, rfl⟩ := List.exists_cons_of_ne_nil hl
  show chunksOfAux ws (xs.length + 1) (x :: xs) = _
  simp only [chunksOfAux]
  congr 1
  apply chunksOfAux_fuel ws hws
  · simp only [List.length_drop, List.length_cons]
    omega
  · rfl

lemma except_bind_ok {α β : Type} {x : Except String α} {f : α → Except String β} {b : β}
    (h : (x >>= f) = .ok b) : ∃ a, x = .ok a ∧ f a = .ok b := by
  cases x with
  | error e =>
    simp only [Bind.bind, Except.bind] at h
    exact absurd h (by simp)
  | ok a =>
    refine ⟨a, rfl, ?_⟩
    simpa only [Bind.bind, Except.bind] using h

lemma measureRows_spec (toNum : String → Option ℚ) (cols : List String) (ws : ℕ)
    (vol : ℚ) (hws : 0 < ws) :
    ∀ n (l : List SensorTuple) (scores : List WindowScore), l.length ≤ n →
      runChunks toNum cols ws vol (chunksOf ws l) = .ok scores →
      scores.length = l.length / ws ∧
      ∀ i, i < l.length / ws →
        ∃ s, scores[i]? = some s ∧
          scoreWindow toNum cols vol ((l.drop (i * ws)).take ws) = .ok s := by
  intro n
  induction n with
  | zero =>
    intro l scores h1 hok
    have hl : l = [] := List.length_eq_zero.mp (by omega)
    subst hl
    rw [chunksOf_nil] at hok
    simp only [runChunks, Except.ok.injEq] at hok
    subst hok
    simp
  | succ n ih =>
    intro l scores h1 hok
    by_cases hl : l = []
    · subst hl
      rw [chunksOf_nil] at hok
      simp only [runChunks, Except.ok.injEq] at hok
      subst hok
      simp
    · rw [chunksOf_cons ws hws l hl] at hok
      simp only [runChunks] at hok
      obtain ⟨s?, hpc, hok2⟩ := except_bind_ok hok
      obtain ⟨rest, hrest, hok3⟩ := except_bind_ok hok2
      by_cases hfull : l.length < ws
      · have hlen : (l.take ws).length ≠ ws := by
          simp only [List.length_take]
          omega
        unfold processChunk at hpc
        obtain ⟨u, hreq, hif⟩ := except_bind_ok hpc
        rw [if_neg hlen] at hif
        have hs : s? = none := by
          simpa only [pure, Except.pure, Except.ok.injEq, eq_comm] using hif
        subst hs
        have hscores : scores = rest := by
          simpa only [pure, Except.pure, Except.ok.injEq, eq_comm] using hok3
        subst hscores
        have hdrop : l.drop ws = [] := List.drop_eq_nil_of_le (le_of_lt hfull)
        rw [hdrop, chunksOf_nil] at hrest
        simp only [runChunks, Except.ok.injEq] at hrest
        subst hrest
        have hdiv : l.length / ws = 0 := Nat.div_eq_of_lt hfull
        simp [hdiv]
      · push_neg at hfull
        have hlen : (l.take ws).length = ws := by
          simp only [List.length_take]
          omega
        unfold processChunk at hpc
        obtain ⟨u, hreq, hif⟩ := except_bind_ok hpc
        rw [if_pos hlen] at hif
        obtain ⟨s, hsw, hps⟩ := except_bind_ok hif
        have hs : s? = some s := by
          simpa only [pure, Except.pure, Except.ok.injEq, eq_comm] using hps
        subst hs
        have hscores : scores = s :: rest := by
          simpa only [pure, Except.pure, Except.ok.injEq, eq_comm] using hok3
        subst hscores
        have hdl : (l.drop ws).length ≤ n := by
          simp only [List.length_drop]
          omega
        obtain ⟨ihlen, ihidx⟩ := ih (l.drop ws) rest hdl hrest
        have hdiv : l.length / ws = (l.length - ws) / ws + 1 := Nat.div_eq_sub_div hws hfull
        rw [List.length_drop] at ihlen
        constructor
        · simp only [List.length_cons, ihlen, hdiv]
        · intro i hi
          cases i with
          | zero =>
            refine ⟨s, by simp, ?_⟩
            simpa using hsw
          | succ j =>
            have hj : j < (l.drop ws).length / ws := by
              rw [List.length_drop]
              omega
            obtain ⟨s', hget, hsw'⟩ := ihidx j hj
            refine ⟨s', by simpa using hget, ?_⟩
            rw [List.drop_drop] at hsw'
            have hidx : ws + j * ws = (j + 1) * ws := by ring
            rw [hidx] at hsw'
            exact hsw'

lemma scoreWindow_ok_fields {toNum : String → Option ℚ} {cols : List String}
    {vol : ℚ} {chunk : List SensorTuple} {s : WindowScore}
    (h : scoreWindow toNum cols vol chunk = .ok s) :
    s.value_start = ((chunk.head?).map (fun t => t.value_id)).getD "" ∧
    s.value_end = ((chunk.getLast?).map (fun t => t.value_id)).getD "" ∧
    s.accuracy = accuracyOf (chunk.map (fun t => toNum t.value)) ∧
    s.completeness = (calculate_window_completeness chunk).1 ∧
    calculate_window_timeliness vol chunk = .ok s.timeliness := by
  unfold scoreWindow at h
  obtain ⟨u1, h1, h⟩ := except_bind_ok h
  obtain ⟨u2, h2, h⟩ := except_bind_ok h
  obtain ⟨u3, h3, h⟩ := except_bind_ok h
  obtain ⟨tim, h4, h⟩ := except_bind_ok h
  have hs : s = { value_start := ((chunk.head?).map (fun t => t.value_id)).getD ""
                  value_end := ((chunk.getLast?).map (fun t => t.value_id)).getD ""
                  accuracy := accuracyOf (chunk.map (fun t => toNum t.value))
                  completeness := (calculate_window_completeness chunk).1
                  timeliness := tim } := by
    simpa only [pure, Except.pure, Except.ok.injEq, eq_comm] using h
  subst hs
  exact ⟨rfl, rfl, rfl, rfl, h4⟩

/-- Claim C2: with a positive window size, the pipeline scores the stream
as consecutive, non-overlapping runs of exactly ws tuples in stream order
(the i-th emitted score comes from the slice of ws rows starting at row
i * ws); exactly length / ws windows are scored, so a trailing remainder
shorter than ws is silently discarded; and each emitted WindowScore carries
value_start and value_end taken from the first and last value_id of its
window. -/
theorem C2_windowing (toNum : String → Option ℚ) (ws : ℕ) (vol : ℚ)
    (tbl : InputTable) (scores : List WindowScore)
    (hws : 0 < ws)
    (hok : measure_dqs toNum ws vol tbl = .ok scores) :
    scores.length = tbl.rows.length / ws ∧
    ∀ i, i < tbl.rows.length / ws →
      ∃ s, scores[i]? = some s ∧
        scoreWindow toNum tbl.cols vol ((tbl.rows.drop (i * ws)).take ws) = .ok s ∧
        ∃ t0 tl, ((tbl.rows.drop (i * ws)).take ws).head? = some t0 ∧
          ((tbl.rows.drop (i * ws)).take ws).getLast? = some tl ∧
          s.value_start = t0.value_id ∧ s.value_end = tl.value_id := by
  unfold measure_dqs at hok
  rw [if_neg (by omega)] at hok
  obtain ⟨hlen, hidx⟩ :=
    measureRows_spec toNum tbl.cols ws vol hws tbl.rows.length tbl.rows scores le_rfl hok
  refine ⟨hlen, ?_⟩
  intro i hi
  obtain ⟨s, hget, hsw⟩ := hidx i hi
  have hwin : ((tbl.rows.drop (i * ws)).take ws).length = ws := by
    have h1 : (i + 1) * ws ≤ (tbl.rows.length / ws) * ws :=
      Nat.mul_le_mul_right ws hi
    have h2 : (tbl.rows.length / ws) * ws ≤ tbl.rows.length := Nat.div_mul_le_self _ _
    have h3 : i * ws + ws ≤ tbl.rows.length := by
      have h4 : (i + 1) * ws = i * ws + ws := by ring
      omega
    simp only [List.length_take, List.length_drop]
    omega
  have hne : ((tbl.rows.drop (i * ws)).take ws) ≠ [] := by
    intro hc
    rw [hc] at hwin
    simp at hwin
    omega
  obtain ⟨t0, ht0⟩ : ∃ t0, ((tbl.rows.drop (i * ws)).take ws).head? = some t0 := by
    cases hcase : (tbl.rows.drop (i * ws)).take ws with
    | nil => exact absurd hcase hne
    | cons y ys => exact ⟨y, rfl⟩
  obtain ⟨tl, htl⟩ : ∃ tl, ((tbl.rows.drop (i * ws)).take ws).getLast? = some tl :=
    Option.isSome_iff_exists.mp (List.getLast?_isSome.mpr hne)
  obtain ⟨hvs, hve, _, _, _⟩ := scoreWindow_ok_fields hsw
  refine ⟨s, hget, hsw, t0, tl, ht0, htl, ?_, ?_⟩
  · rw [hvs, ht0]
    rfl
  · rw [hve, htl]
    rfl

/-- A concrete three-row stream (all values missing, zero delay) used to
instantiate the pipeline theorems on closed inputs. -/
def rowsW : List SensorTuple :=
  [SensorTuple.mk "a1" "s7125" "" (some 0) (some 0),
   SensorTuple.mk "a2" "s7125" "" (some 0) (some 0),
   SensorTuple.mk "a3" "s7125" "" (some 0) (some 0)]

/-- The concrete stream together with a full header. -/
def tblW : InputTable :=
  InputTable.mk ["value_id", "sensor_id", "value", "timestamp", "available_time"] rowsW

/-- The score of the one full window of rowsW at window size 2. -/
def scoreW : WindowScore := WindowScore.mk "a1" "a2" 0 0 1

theorem C2_windowing_witness :
    ((0 < 2 ∧ measure_dqs toNumSimple 2 3000 tblW = .ok [scoreW]) ∧
      ([scoreW].length = tblW.rows.length / 2 ∧
       ∀ i, i < tblW.rows.length / 2 →
         ∃ s, [scoreW][i]? = some s ∧
           scoreWindow toNumSimple tblW.cols 3000 ((tblW.rows.drop (i * 2)).take 2) = .ok s ∧
           ∃ t0 tl, ((tblW.rows.drop (i * 2)).take 2).head? = some t0 ∧
             ((tblW.rows.drop (i * 2)).take 2).getLast? = some tl ∧
             s.value_start = t0.value_id ∧ s.value_end = tl.value_id)) := by
  have hok : measure_dqs toNumSimple 2 3000 tblW = .ok [scoreW] := by
    simp [tblW, rowsW, scoreW, measure_dqs, chunksOf, chunksOfAux, runChunks, processChunk,
      scoreWindow, requireCol, calculate_window_timeliness, calculate_window_completeness,
      accuracyOf, accVT, nanCount, remaining, npMedian, rowTimeliness, truncQ,
      toNumSimple, digitsToNat, alphaMAD, Bind.bind, Except.bind, pure, Except.pure,
      WindowScore.mk.injEq]
  exact ⟨⟨by norm_num, hok⟩, C2_windowing toNumSimple 2 3000 tblW [scoreW] (by norm_num) hok⟩

lemma completeness_mem (w : List SensorTuple) :
    0 ≤ (calculate_window_completeness w).1 ∧ (calculate_window_completeness w).1 ≤ 1 := by
  unfold calculate_window_completeness
  dsimp only
  by_cases hw : w.length = 0
  · rw [if_pos hw]
    norm_num
  · rw [if_neg hw]
    have hlen : (0 : ℚ) < (w.length : ℚ) := by exact_mod_cast Nat.pos_of_ne_zero hw
    have hle : ((w.filter (fun t => decide (t.value = ""))).length : ℚ) ≤ (w.length : ℚ) := by
      exact_mod_cast List.length_filter_le _ w
    have h1 : ((w.filter (fun t => decide (t.value = ""))).length : ℚ) / (w.length : ℚ) ≤ 1 :=
      (div_le_one hlen).mpr hle
    have h0 : 0 ≤ ((w.filter (fun t => decide (t.value = ""))).length : ℚ) / (w.length : ℚ) := by
      positivity
    constructor <;> linarith

lemma timeliness_ok_mem {vol : ℚ} {w : List SensorTuple} {q : ℚ} (hvol : 0 < vol)
    (hmono : ∀ t ∈ w, ∀ a b : ℚ, t.timestamp = some a → t.available_time = some b → a ≤ b)
    (hok : calculate_window_timeliness vol w = .ok q) : 0 ≤ q ∧ q ≤ 1 := by
  unfold calculate_window_timeliness at hok
  by_cases hlen : w.length = 0
  · rw [if_pos hlen] at hok
    have hq : (1 : ℚ) = q := by simpa using hok
    rw [← hq]
    norm_num
  · rw [if_neg hlen] at hok
    by_cases hnan : (w.any (fun t => t.available_time.isNone || t.timestamp.isNone)) = true
    · rw [if_pos hnan] at hok
      exact absurd hok (by simp)
    · rw [if_neg (by simpa using hnan)] at hok
      have hq : (w.map (rowTimeliness vol)).sum / (w.length : ℚ) = q := by simpa using hok
      have hbound : ∀ x ∈ w.map (rowTimeliness vol), 0 ≤ x ∧ x ≤ 1 := by
        intro x hx
        obtain ⟨t, ht, rfl⟩ := List.mem_map.mp hx
        have hsome : ¬(t.available_time.isNone || t.timestamp.isNone) = true := by
          intro hc
          exact hnan (List.any_eq_true.mpr ⟨t, ht, hc⟩)
        simp only [Bool.or_eq_true, not_or] at hsome
        obtain ⟨hav, hts⟩ := hsome
        obtain ⟨b, hb⟩ := Option.ne_none_iff_exists'.mp
          (by simpa [Option.isNone_iff_eq_none] using hav)
        obtain ⟨a, ha⟩ := Option.ne_none_iff_exists'.mp
          (by simpa [Option.isNone_iff_eq_none] using hts)
        have hab : a ≤ b := hmono t ht a b ha hb
        have htr : (0 : ℤ) ≤ truncQ b - truncQ a := by
          have := truncQ_mono hab
          omega
        have hcur : (0 : ℚ) ≤ ((truncQ b - truncQ a : ℤ) : ℚ) := by exact_mod_cast htr
        constructor
        · exact le_max_right _ _
        · unfold rowTimeliness
          rw [ha, hb]
          simp only [Option.getD_some]
          apply max_le _ (by norm_num)
          have hdiv : 0 ≤ ((truncQ b - truncQ a : ℤ) : ℚ) / vol :=
            div_nonneg hcur (le_of_lt hvol)
          linarith
      have hsum0 : 0 ≤ (w.map (rowTimeliness vol)).sum :=
        List.sum_nonneg (fun x hx => (hbound x hx).1)
      have hsum1 : (w.map (rowTimeliness vol)).sum ≤ ((w.map (rowTimeliness vol)).length : ℕ) • (1 : ℚ) :=
        List.sum_le_card_nsmul _ 1 (fun x hx => (hbound x hx).2)
      have hsum1Q : (w.map (rowTimeliness vol)).sum ≤ (w.length : ℚ) := by
        rw [List.length_map] at hsum1
        simpa [nsmul_eq_mul] using hsum1
      have hlenQ : (0 : ℚ) < (w.length : ℚ) := by exact_mod_cast Nat.pos_of_ne_zero hlen
      rw [← hq]
      constructor
      · exact div_nonneg hsum0 (le_of_lt hlenQ)
      · rw [div_le_one hlenQ]
        exact hsum1Q

lemma runChunks_mem_scoreWindow {toNum : String → Option ℚ} {cols : List String}
    {ws : ℕ} {vol : ℚ} :
    ∀ (cs : List (List SensorTuple)) (scores : List WindowScore),
      runChunks toNum cols ws vol cs = .ok scores →
      ∀ s ∈ scores, ∃ c ∈ cs, scoreWindow toNum cols vol c = .ok s := by
  intro cs
  induction cs with
  | nil =>
    intro scores hok s hs
    simp only [runChunks, Except.ok.injEq] at hok
    subst hok
    simp at hs
  | cons c cs ih =>
    intro scores hok s hs
    simp only [runChunks] at hok
    obtain ⟨s?, hpc, hok2⟩ := except_bind_ok hok
    obtain ⟨rest, hrest, hok3⟩ := except_bind_ok hok2
    unfold processChunk at hpc
    obtain ⟨u, hreq, hif⟩ := except_bind_ok hpc
    by_cases hfull : c.length = ws
    · rw [if_pos hfull] at hif
      obtain ⟨s0, hsw, hps⟩ := except_bind_ok hif
      have hs0 : s? = some s0 := by
        simpa only [pure, Except.pure, Except.ok.injEq, eq_comm] using hps
      subst hs0
      have hsc : scores = s0 :: rest := by
        simpa only [pure, Except.pure, Except.ok.injEq, eq_comm] using hok3
      subst hsc
      rcases List.mem_cons.mp hs with rfl | hmem
      · exact ⟨c, List.mem_cons_self _ _, hsw⟩
      · obtain ⟨c', hc', hsw'⟩ := ih _ hrest s hmem
        exact ⟨c', List.mem_cons_of_mem _ hc', hsw'⟩
    · rw [if_neg hfull] at hif
      have hs0 : s? = none := by
        simpa only [pure, Except.pure, Except.ok.injEq, eq_comm] using hif
      subst hs0
      have hsc : scores = rest := by
        simpa only [pure, Except.pure, Except.ok.injEq, eq_comm] using hok3
      subst hsc
      obtain ⟨c', hc', hsw'⟩ := ih _ hrest s hs
      exact ⟨c', List.mem_cons_of_mem _ hc', hsw'⟩

lemma chunksOf_mem_subset (ws : ℕ) (hws : 0 < ws) :
    ∀ n (l : List SensorTuple), l.length ≤ n →
      ∀ c ∈ chunksOf ws l, ∀ t ∈ c, t ∈ l := by
  intro n
  induction n with
  | zero =>
    intro l h c hc t ht
    have hl : l = [] := List.length_eq_zero.mp (by omega)
    subst hl
    rw [chunksOf_nil] at hc
    simp at hc
  | succ n ih =>
    intro l h c hc t ht
    by_cases hl : l = []
    · subst hl
      rw [chunksOf_nil] at hc
      simp at hc
    · rw [chunksOf_cons ws hws l hl] at hc
      rcases List.mem_cons.mp hc with rfl | hmem
      · exact List.take_subset _ _ ht
      · have hdl : (l.drop ws).length ≤ n := by
          have hp := List.length_pos.mpr hl
          simp only [List.length_drop]
          omega
        exact List.drop_subset _ _ (ih (l.drop ws) hdl c hmem t ht)

/-- Claim C10: every window score emitted by the pipeline has accuracy,
completeness and timeliness all within the unit interval, given the data
model invariants that the volatility parameter is positive and each tuple
became available no earlier than its logical timestamp. -/
theorem C10_scores_unit_interval (toNum : String → Option ℚ) (ws : ℕ) (vol : ℚ)
    (tbl : InputTable) (scores : List WindowScore)
    (hvol : 0 < vol)
    (hmono : ∀ t ∈ tbl.rows, ∀ a b : ℚ,
      t.timestamp = some a → t.available_time = some b → a ≤ b)
    (hok : measure_dqs toNum ws vol tbl = .ok scores) :
    ∀ s ∈ scores,
      (0 ≤ s.accuracy ∧ s.accuracy ≤ 1) ∧
      (0 ≤ s.completeness ∧ s.completeness ≤ 1) ∧
      (0 ≤ s.timeliness ∧ s.timeliness ≤ 1) := by
  intro s hs
  unfold measure_dqs at hok
  by_cases hws : ws = 0
  · rw [if_pos hws] at hok
    exact absurd hok (by simp)
  · rw [if_neg hws] at hok
    obtain ⟨c, hc, hsw⟩ := runChunks_mem_scoreWindow _ _ hok s hs
    have hsub : ∀ t ∈ c, t ∈ tbl.rows :=
      chunksOf_mem_subset ws (Nat.pos_of_ne_zero hws) tbl.rows.length tbl.rows le_rfl c hc
    obtain ⟨_, _, hacc, hcomp, htim⟩ := scoreWindow_ok_fields hsw
    refine ⟨?_, ?_, ?_⟩
    · rw [hacc]
      exact accuracyOf_mem _
    · rw [hcomp]
      exact completeness_mem _
    · exact timeliness_ok_mem hvol
        (fun t ht a b hts hav => hmono t (hsub t ht) a b hts hav) htim

theorem C10_scores_unit_interval_witness :
    ((0 : ℚ) < 3000 ∧
     (∀ t ∈ tblW.rows, ∀ a b : ℚ,
        t.timestamp = some a → t.available_time = some b → a ≤ b) ∧
     measure_dqs toNumSimple 2 3000 tblW = .ok [scoreW]) ∧
    (∀ s ∈ [scoreW],
      (0 ≤ s.accuracy ∧ s.accuracy ≤ 1) ∧
      (0 ≤ s.completeness ∧ s.completeness ≤ 1) ∧
      (0 ≤ s.timeliness ∧ s.timeliness ≤ 1)) := by
  have hmono : ∀ t ∈ tblW.rows, ∀ a b : ℚ,
      t.timestamp = some a → t.available_time = some b → a ≤ b := by
    intro t ht a b h1 h2
    simp only [tblW, rowsW, List.mem_cons, List.not_mem_nil, or_false] at ht
    rcases ht with rfl | rfl | rfl <;> simp_all
  have hok : measure_dqs toNumSimple 2 3000 tblW = .ok [scoreW] := by
    simp [tblW, rowsW, scoreW, measure_dqs, chunksOf, chunksOfAux, runChunks, processChunk,
      scoreWindow, requireCol, calculate_window_timeliness, calculate_window_completeness,
      accuracyOf, accVT, nanCount, remaining, npMedian, rowTimeliness, truncQ,
      toNumSimple, digitsToNat, alphaMAD, Bind.bind, Except.bind, pure, Except.pure,
      WindowScore.mk.injEq]
  exact ⟨⟨by norm_num, hmono, hok⟩,
    C10_scores_unit_interval toNumSimple 2 3000 tblW [scoreW] (by norm_num) hmono hok⟩

/-- Claim C8 counterexample: a stream whose header lacks the sensor_id
column is scored without any error, because measure_dqs never consults
sensor_id; the claim instead demands a fatal SchemaError for any absent
required column, sensor_id included. -/
theorem C8_counterexample :
    measure_dqs toNumSimple 1 3000
      (InputTable.mk ["value_id", "value", "timestamp", "available_time"]
        [SensorTuple.mk "a1" "s7125" "" (some 0) (some 0)]) =
      .ok [WindowScore.mk "a1" "a1" 0 0 1] ∧
    ∀ e, measure_dqs toNumSimple 1 3000
      (InputTable.mk ["value_id", "value", "timestamp", "available_time"]
        [SensorTuple.mk "a1" "s7125" "" (some 0) (some 0)]) ≠ .error e := by
  have hok : measure_dqs toNumSimple 1 3000
      (InputTable.mk ["value_id", "value", "timestamp", "available_time"]
        [SensorTuple.mk "a1" "s7125" "" (some 0) (some 0)]) =
      .ok [WindowScore.mk "a1" "a1" 0 0 1] := by
    simp [measure_dqs, chunksOf, chunksOfAux, runChunks, processChunk,
      scoreWindow, requireCol, calculate_window_timeliness, calculate_window_completeness,
      accuracyOf, accVT, nanCount, remaining, npMedian, rowTimeliness, truncQ,
      toNumSimple, digitsToNat, alphaMAD, Bind.bind, Except.bind, pure, Except.pure,
      WindowScore.mk.injEq]
  exact ⟨hok, fun e => by rw [hok]; simp⟩

lemma requireCol_congr {cols₁ cols₂ : List String} (nm : String)
    (h : nm ∈ cols₁ ↔ nm ∈ cols₂) : requireCol cols₁ nm = requireCol cols₂ nm := by
  unfold requireCol
  by_cases h1 : nm ∈ cols₁
  · rw [if_pos h1, if_pos (h.mp h1)]
  · rw [if_neg h1, if_neg (fun hc => h1 (h.mpr hc))]

lemma measure_dqs_cols_congr (toNum : String → Option ℚ) (ws : ℕ) (vol : ℚ)
    (rows : List SensorTuple) (cols₁ cols₂ : List String)
    (h1 : ("value" ∈ cols₁) ↔ ("value" ∈ cols₂))
    (h2 : ("value_id" ∈ cols₁) ↔ ("value_id" ∈ cols₂))
    (h3 : ("available_time" ∈ cols₁) ↔ ("available_time" ∈ cols₂))
    (h4 : ("timestamp" ∈ cols₁) ↔ ("timestamp" ∈ cols₂)) :
    measure_dqs toNum ws vol (InputTable.mk cols₁ rows) =
    measure_dqs toNum ws vol (InputTable.mk cols₂ rows) := by
  have hsw : scoreWindow toNum cols₁ vol = scoreWindow toNum cols₂ vol := by
    funext chunk
    unfold scoreWindow
    rw [requireCol_congr _ h2, requireCol_congr _ h3, requireCol_congr _ h4]
  have hpc : processChunk toNum cols₁ ws vol = processChunk toNum cols₂ ws vol := by
    funext chunk
    unfold processChunk
    rw [requireCol_congr _ h1, hsw]
  have hrc : ∀ cs, runChunks toNum cols₁ ws vol cs = runChunks toNum cols₂ ws vol cs := by
    intro cs
    induction cs with
    | nil => rfl
    | cons c cs ih => simp only [runChunks, hpc, ih]
  unfold measure_dqs
  by_cases hws0 : ws = 0
  · rw [if_pos hws0, if_pos hws0]
  · rw [if_neg hws0, if_neg hws0]
    exact hrc _

/-- Claim C8 amended: if the value column is absent the run fails on the
first chunk with a KeyError naming it; if value_id, available_time or
timestamp is absent (the earlier ones being present) the run fails on the
first full window with a KeyError naming the missing column; the failure is
the whole result, so no partial scores are produced; but the sensor_id
column is never consulted, so its absence is not detected. -/
theorem C8_schema_errors (toNum : String → Option ℚ) (ws : ℕ) (vol : ℚ)
    (cols : List String) (rows : List SensorTuple) (hws : 0 < ws) :
    (rows ≠ [] → "value" ∉ cols →
      measure_dqs toNum ws vol (InputTable.mk cols rows) =
        .error ("KeyError: " ++ "value")) ∧
    ("value" ∈ cols → "value_id" ∉ cols → ws ≤ rows.length →
      measure_dqs toNum ws vol (InputTable.mk cols rows) =
        .error ("KeyError: " ++ "value_id")) ∧
    ("value" ∈ cols → "value_id" ∈ cols → "available_time" ∉ cols → ws ≤ rows.length →
      measure_dqs toNum ws vol (InputTable.mk cols rows) =
        .error ("KeyError: " ++ "available_time")) ∧
    ("value" ∈ cols → "value_id" ∈ cols → "available_time" ∈ cols → "timestamp" ∉ cols →
      ws ≤ rows.length →
      measure_dqs toNum ws vol (InputTable.mk cols rows) =
        .error ("KeyError: " ++ "timestamp")) ∧
    (measure_dqs toNum ws vol (InputTable.mk ("sensor_id" :: cols) rows) =
      measure_dqs toNum ws vol (InputTable.mk cols rows)) := by
  have hfull : ws ≤ rows.length → (rows.take ws).length = ws := by
    intro h
    simp only [List.length_take]
    omega
  have hne : ws ≤ rows.length → rows ≠ [] := by
    intro h hc
    subst hc
    simp at h
    omega
  refine ⟨?_, ?_, ?_, ?_, ?_⟩
  · intro hrne hnv
    unfold measure_dqs
    rw [if_neg (by omega)]
    rw [chunksOf_cons ws hws _ hrne]
    simp [runChunks, processChunk, requireCol, hnv, Bind.bind, Except.bind]
  · intro hv hnv hwl
    unfold measure_dqs
    rw [if_neg (by omega)]
    rw [chunksOf_cons ws hws _ (hne hwl)]
    simp [runChunks, processChunk, scoreWindow, requireCol, hv, hnv, hfull hwl,
      Bind.bind, Except.bind]
  · intro hv hvi hnav hwl
    unfold measure_dqs
    rw [if_neg (by omega)]
    rw [chunksOf_cons ws hws _ (hne hwl)]
    simp [runChunks, processChunk, scoreWindow, requireCol, hv, hvi, hnav, hfull hwl,
      Bind.bind, Except.bind]
  · intro hv hvi hav hnts hwl
    unfold measure_dqs
    rw [if_neg (by omega)]
    rw [chunksOf_cons ws hws _ (hne hwl)]
    simp [runChunks, processChunk, scoreWindow, requireCol, hv, hvi, hav, hnts, hfull hwl,
      Bind.bind, Except.bind]
  · apply measure_dqs_cols_congr <;> simp

theorem C8_schema_errors_witness :
    0 < 1 ∧
    ((rowsW ≠ [] → "value" ∉ ["value"] →
      measure_dqs toNumSimple 1 3000 (InputTable.mk ["value"] rowsW) =
        .error ("KeyError: " ++ "value")) ∧
    ("value" ∈ ["value"] → "value_id" ∉ ["value"] → 1 ≤ rowsW.length →
      measure_dqs toNumSimple 1 3000 (InputTable.mk ["value"] rowsW) =
        .error ("KeyError: " ++ "value_id")) ∧
    ("value" ∈ ["value"] → "value_id" ∈ ["value"] → "available_time" ∉ ["value"] →
      1 ≤ rowsW.length →
      measure_dqs toNumSimple 1 3000 (InputTable.mk ["value"] rowsW) =
        .error ("KeyError: " ++ "available_time")) ∧
    ("value" ∈ ["value"] → "value_id" ∈ ["value"] → "available_time" ∈ ["value"] →
      "timestamp" ∉ ["value"] → 1 ≤ rowsW.length →
      measure_dqs toNumSimple 1 3000 (InputTable.mk ["value"] rowsW) =
        .error ("KeyError: " ++ "timestamp")) ∧
    (measure_dqs toNumSimple 1 3000 (InputTable.mk ("sensor_id" :: ["value"]) rowsW) =
      measure_dqs toNumSimple 1 3000 (InputTable.mk ["value"] rowsW))) :=
  ⟨by norm_num, C8_schema_errors toNumSimple 1 3000 ["value"] rowsW (by norm_num)⟩

lemma any_gt_eq_decide_maxAbsDelta (ds : List (Option ℚ)) :
    (ds.any (fun d => Option.any (fun x => decide ((9 : ℚ) / 1000 < |x|)) d)) =
      decide ((9 : ℚ) / 1000 < maxAbsDelta ds) := by
  induction ds with
  | nil =>
    have h0 : maxAbsDelta [] = 0 := rfl
    simp only [List.any_nil, h0]
    exact (decide_eq_false (by norm_num)).symm
  | cons d ds ih =>
    cases d with
    | none =>
      have h1 : maxAbsDelta (none :: ds) = maxAbsDelta ds := rfl
      have h2 : Option.any (fun x => decide ((9 : ℚ) / 1000 < |x|)) (none : Option ℚ) = false :=
        rfl
      simp only [List.any_cons, h1, h2, Bool.false_or]
      exact ih
    | some x =>
      have h1 : maxAbsDelta (some x :: ds) = max |x| (maxAbsDelta ds) := rfl
      have h2 : Option.any (fun x => decide ((9 : ℚ) / 1000 < |x|)) (some x) =
        decide ((9 : ℚ) / 1000 < |x|) := rfl
      simp only [List.any_cons, h1, h2]
      have h3 : decide ((9 : ℚ) / 1000 < max |x| (maxAbsDelta ds)) =
          decide ((9 : ℚ) / 1000 < |x| ∨ (9 : ℚ) / 1000 < maxAbsDelta ds) :=
        decide_eq_decide.mpr lt_max_iff
      rw [h3]
      by_cases hx : (9 : ℚ) / 1000 < |x|
      · simp [hx]
      · simp [hx, ih]

lemma compare_diffs_eq (toNum : String → Option ℚ) :
    ∀ (computed : List WindowScore) (body : List (List String)),
      List.zipWith (List.zipWith cellDiff)
        (computed.map (fun s =>
          [toNum s.value_start, toNum s.value_end, some s.accuracy, some s.completeness,
           some s.timeliness]))
        ((body.map (fun r => [r[2]?, r[3]?, r[0]?, r[1]?, r[4]?])).map
          (fun r => r.map (fun c => c.bind toNum))) =
      List.zipWith (fun s r =>
        [cellDiff (toNum s.value_start) (numCell toNum r 2),
         cellDiff (toNum s.value_end) (numCell toNum r 3),
         cellDiff (some s.accuracy) (numCell toNum r 0),
         cellDiff (some s.completeness) (numCell toNum r 1),
         cellDiff (some s.timeliness) (numCell toNum r 4)]) computed body := by
  intro computed
  induction computed with
  | nil => intro body; rfl
  | cons s ss ih =>
    intro body
    cases body with
    | nil => rfl
    | cons r rs =>
      simp only [List.map_cons, List.zipWith_cons_cons, ih]
      congr 1

/-- Claim C3: the Reconciliation Comparator of the source coincides with
the comparator the specification describes: the header row of the
reference is skipped, reference columns are positionally mapped with
column 0 as Accuracy, 1 as Completeness, 2 as Value_Start, 3 as Value_End
and 4 as Timeliness, every column of both sequences is coerced to numeric
with failures becoming NaN, the elementwise difference computed minus
reference is taken per column per row, and exactly the rows whose maximum
absolute delta across all columns exceeds the tolerance 0.009 are
retained; the comparison passes exactly when no row is retained, and this
equality transfers that criterion to the source function. -/
theorem C3_compare_results_refines (toNum : String → Option ℚ)
    (computed : List WindowScore) (refTable : List (List String)) :
    compare_results toNum computed refTable = compareResultsSpec toNum computed refTable := by
  unfold compare_results compareResultsSpec
  dsimp only
  rw [compare_diffs_eq toNum computed (refTable.drop 1)]
  apply List.filter_congr
  intro p hp
  exact any_gt_eq_decide_maxAbsDelta p.2
